import Mathlib

/-!
Verification of the firework particle-simulation core (`FireworkCanvas`).

The simulation state and the per-frame update pass of `render` are embedded
shallowly: numbers become elements of a linear ordered field (instantiated at
`ℚ` for executable checks and at `ℝ` where the source uses `Math.cos` /
`Math.sin`), every call to `Math.random()` becomes an explicit oracle value in
`[0, 1)`, and the in-place back-to-front splice loops over the pools become
fuel-indexed recursions on lists.
-/

set_option linter.unusedSectionVars false

variable {α : Type} [LinearOrderedField α] [FloorRing α]

/-- Configuration snapshot: `FireworkConfig` from `types.ts`, together with the
`starfield` / `showConstellations` flags consumed by `FireworkCanvas`. -/
structure FireworkConfig (α : Type) where
  particleCount : ℕ
  gravity : α
  friction : α
  spread : α
  decayRate : α
  hueVariance : α
  baseSize : α
  trailEffect : Bool
  starfield : Bool
  showConstellations : Bool
  deriving DecidableEq

/-- Color value `hsl(h, s%, l%)` as produced by the string templates in the
source. -/
structure Hsl where
  h : ℤ
  s : ℤ
  l : ℤ
  deriving DecidableEq

/-- Particle record from `types.ts`. -/
structure Particle (α : Type) where
  x : α
  y : α
  vx : α
  vy : α
  alpha : α
  color : Hsl
  size : α
  decay : α
  deriving DecidableEq

/-- Star record from `FireworkCanvas`. -/
structure BgStar (α : Type) where
  x : α
  y : α
  vx : α
  vy : α
  size : α
  maxOpacity : α
  twinklePhase : α
  twinkleSpeed : α
  deriving DecidableEq

/-- Point of a constellation shape. -/
structure Pt (α : Type) where
  x : α
  y : α
  deriving DecidableEq

/-- Constellation record from `FireworkCanvas`. -/
structure Constellation (α : Type) where
  stars : List (Pt α)
  vx : α
  vy : α
  alpha : α
  deriving DecidableEq

/-- Rocket record from `FireworkCanvas`. -/
structure Rocket (α : Type) where
  x : α
  y : α
  targetY : α
  vx : α
  vy : α
  hue : ℤ
  trailTimer : α
  deriving DecidableEq

instance : Inhabited (Pt α) := ⟨⟨0, 0⟩⟩

instance : Inhabited (Particle α) := ⟨⟨0, 0, 0, 0, 0, ⟨0, 0, 0⟩, 0, 0⟩⟩

instance : Inhabited (Rocket α) := ⟨⟨0, 0, 0, 0, 0, 0, 0⟩⟩

/-- Trigonometric primitives used by the source (`Math.cos`, `Math.sin`,
`Math.PI`); instantiated with the genuine real functions in `realTrig`. -/
structure Trig (α : Type) where
  cos : α → α
  sin : α → α
  pi : α

/-- Genuine trigonometric primitives over the reals. -/
noncomputable def realTrig : Trig ℝ := ⟨Real.cos, Real.sin, Real.pi⟩

/-- Helper `random(min, max) = Math.random() * (max - min) + min` from the
source, with the `Math.random()` result `u` made explicit. -/
def random (u lo hi : α) : α := u * (hi - lo) + lo

/-- One random draw bundle for the statements evaluated while a single rocket
is visited by the render loop: the `Math.random() < 0.5` trail test, the five
draws of the trail particle, the hue draw of `createFirework` (unused when an
override hue is passed), and the flat stream of draws of the burst. -/
structure RocketDraws (α : Type) where
  emit : α
  t1 : α
  t2 : α
  t3 : α
  t4 : α
  t5 : α
  hueU : α
  burst : ℕ → α

/-- Particle `i` created by the loop body of `createFirework`: angle drawn in
`[0, 2π)`, speed in `[0, spread)`, hue floored from `[baseHue - 20,
baseHue + 20)`, color `hsl(hue, 100%, 65%)`, size in `[1, baseSize)`, decay in
`[0.5·decayRate, 1.5·decayRate)`, alpha `1`. -/
def mkBurstParticle (cfg : FireworkConfig α) (T : Trig α) (x y : α) (baseHue : ℤ)
    (u : ℕ → α) (i : ℕ) : Particle α :=
  let angle := random (u (5 * i)) 0 (T.pi * 2)
  let velocity := random (u (5 * i + 1)) 0 cfg.spread
  let hue := ⌊random (u (5 * i + 2)) ((baseHue : α) - 20) ((baseHue : α) + 20)⌋
  { x := x
    y := y
    vx := T.cos angle * velocity
    vy := T.sin angle * velocity
    alpha := 1
    color := ⟨hue, 100, 65⟩
    size := random (u (5 * i + 3)) 1 cfg.baseSize
    decay := random (u (5 * i + 4)) (cfg.decayRate * (1/2)) (cfg.decayRate * (3/2)) }

/-- Particles pushed by the `for` loop of `createFirework`. -/
def burstList (cfg : FireworkConfig α) (T : Trig α) (x y : α) (baseHue : ℤ)
    (u : ℕ → α) : List (Particle α) :=
  (List.range cfg.particleCount).map (mkBurstParticle cfg T x y baseHue u)

/-- Embedding of `createFirework(x, y, overrideHue?)`: chooses the base hue
(`overrideHue` if present, otherwise `Math.floor(Math.random() * 360)` from the
draw `hueU`) and pushes `particleCount` particles onto the pool. -/
def createFirework (cfg : FireworkConfig α) (T : Trig α) (x y : α)
    (overrideHue : Option ℤ) (hueU : α) (u : ℕ → α)
    (pool : List (Particle α)) : List (Particle α) :=
  let baseColorHue := match overrideHue with
    | some h => h
    | none => ⌊hueU * 360⌋
  pool ++ burstList cfg T x y baseColorHue u

/-- Trail particle pushed at the rocket's current position by the rocket branch
of the render loop. -/
def trailParticle (d : RocketDraws α) (r : Rocket α) : Particle α :=
  { x := r.x
    y := r.y
    vx := (d.t1 - 1/2) * (1/2)
    vy := random d.t2 1 3
    alpha := random d.t3 (1/2) 1
    color := ⟨r.hue, 80, 50⟩
    size := random d.t4 (1/2) (3/2)
    decay := random d.t5 (3/100) (6/100) }

/-- Rocket motion of the render loop: `rocket.x += rocket.vx; rocket.y +=
rocket.vy`. -/
def stepRocket (r : Rocket α) : Rocket α :=
  { r with x := r.x + r.vx, y := r.y + r.vy }

/-- Particle physics of the render loop, in source order: `vx *= friction;
vy *= friction; vy += gravity; x += vx; y += vy; alpha -= decay`. -/
def stepParticle (cfg : FireworkConfig α) (p : Particle α) : Particle α :=
  let vx := p.vx * cfg.friction
  let vy0 := p.vy * cfg.friction
  let vy := vy0 + cfg.gravity
  let x := p.x + vx
  let y := p.y + vy
  let alpha := p.alpha - p.decay
  { p with vx := vx, vy := vy, x := x, y := y, alpha := alpha }

/-- Back-to-front particle loop of `render` (`for (let i = length - 1; i >= 0;
i--)`): the particle at the current index is integrated in place and spliced
out the moment its alpha drops to `0` or below. The first argument is the loop
counter (`i + 1`). -/
def particlePass (cfg : FireworkConfig α) : ℕ → List (Particle α) → List (Particle α)
  | 0, ps => ps
  | n + 1, ps =>
    if h : n < ps.length then
      let q := stepParticle cfg ps[n]
      let ps1 := ps.set n q
      if q.alpha ≤ 0 then particlePass cfg n (ps1.eraseIdx n)
      else particlePass cfg n ps1
    else particlePass cfg n ps

/-- Particle update of one frame: the loop bound is read from the pool length
at the start of the loop. -/
def updateParticles (cfg : FireworkConfig α) (ps : List (Particle α)) : List (Particle α) :=
  particlePass cfg ps.length ps

/-- Back-to-front rocket loop of `render`: each rocket moves, (with probability
`0.5`) pushes one trail particle, and on `rocket.y <= rocket.targetY` calls
`createFirework(rocket.x, rocket.targetY, rocket.hue)` and is spliced out. The
oracle `o` supplies the random draws consumed while index `i` is visited. -/
def rocketPass (cfg : FireworkConfig α) (T : Trig α) (o : ℕ → RocketDraws α) :
    ℕ → List (Rocket α) → List (Particle α) → List (Rocket α) × List (Particle α)
  | 0, rs, ps => (rs, ps)
  | n + 1, rs, ps =>
    if h : n < rs.length then
      let r := stepRocket rs[n]
      let rs1 := rs.set n r
      let ps1 := if (o n).emit < 1/2 then ps ++ [trailParticle (o n) r] else ps
      if r.y ≤ r.targetY then
        rocketPass cfg T o n (rs1.eraseIdx n)
          (createFirework cfg T r.x r.targetY (some r.hue) (o n).hueU (o n).burst ps1)
      else rocketPass cfg T o n rs1 ps1
    else rocketPass cfg T o n rs ps

/-- Rocket update of one frame, returning the surviving rockets and the
particle pool extended by the trail and burst particles pushed during the
pass. -/
def updateRockets (cfg : FireworkConfig α) (T : Trig α) (o : ℕ → RocketDraws α)
    (rs : List (Rocket α)) (ps : List (Particle α)) :
    List (Rocket α) × List (Particle α) :=
  rocketPass cfg T o rs.length rs ps

/-- Particles contributed to the pool while one rocket is visited: the trail
particle (if the `Math.random() < 0.5` test passes) followed by the burst (if
the rocket reaches its target this frame). -/
def rocketContribution (cfg : FireworkConfig α) (T : Trig α) (d : RocketDraws α)
    (r0 : Rocket α) : List (Particle α) :=
  let r := stepRocket r0
  (if d.emit < 1/2 then [trailParticle d r] else []) ++
    (if r.y ≤ r.targetY then burstList cfg T r.x r.targetY r.hue d.burst else [])

/-- Particles contributed by the rockets at indices `n - 1, n - 2, …, 0`, in
the order the back-to-front loop pushes them. -/
def rocketContribs (cfg : FireworkConfig α) (T : Trig α) (o : ℕ → RocketDraws α)
    (rs : List (Rocket α)) : ℕ → List (Particle α)
  | 0 => []
  | n + 1 => rocketContribution cfg T (o n) (rs.getD n default) ++ rocketContribs cfg T o rs n

/-- Star update of the starfield branch of `render`: drift by `(vx, vy)`, then
the four sequential wrap checks against the logical bounds. -/
def stepStar (w h : α) (st : BgStar α) : BgStar α :=
  let x0 := st.x + st.vx
  let y0 := st.y + st.vy
  let x1 := if x0 < 0 then w else x0
  let x2 := if x1 > w then 0 else x1
  let y1 := if y0 < 0 then h else y0
  let y2 := if y1 > h then 0 else y1
  { st with x := x2, y := y2 }

/-- Constellation update of the render loop: every point translates by the
shape's `(vx, vy)`; if the first point then lies left of `-200`, the whole
shape is shifted right by `logicalWidth + 200 + 200`. -/
def stepConstellation (w : α) (c : Constellation α) : Constellation α :=
  let moved := c.stars.map (fun p => ⟨p.x + c.vx, p.y + c.vy⟩)
  let refX := (moved.headD default).x
  if refX < -(200 : α) then
    { c with stars := moved.map (fun p => ⟨p.x + (w + 200 + 200), p.y⟩) }
  else
    { c with stars := moved }

/-- Simulation state owned by the render loop. -/
structure SimState (α : Type) where
  stars : List (BgStar α)
  consts : List (Constellation α)
  rockets : List (Rocket α)
  particles : List (Particle α)
  deriving DecidableEq

/-- One frame of `render`, state part: stars and constellations advance inside
their drawing guards, then the rocket loop runs (feeding trail and burst
particles into the pool), then the particle loop runs over the extended
pool. -/
def frameStep (cfg : FireworkConfig α) (T : Trig α) (o : ℕ → RocketDraws α)
    (w h : α) (s : SimState α) : SimState α :=
  let stars := if cfg.starfield then s.stars.map (stepStar w h) else s.stars
  let consts :=
    if cfg.starfield && cfg.showConstellations then s.consts.map (stepConstellation w)
    else s.consts
  let rp := updateRockets cfg T o s.rockets s.particles
  { stars := stars
    consts := consts
    rockets := rp.1
    particles := updateParticles cfg rp.2 }

/-- Random draw bundle of `launchRocket`: the hue draw, the speed draw of
`random(12, 15)` and the wobble draw of `random(-0.5, 0.5)`. -/
structure LaunchDraws (α : Type) where
  hueU : α
  speedU : α
  vxU : α

/-- Embedding of `launchRocket(targetX, targetY)`: pushes one rocket starting
at `(targetX, canvas.height)` with target altitude `targetY`, vertical speed
`-random(12, 15)`, horizontal wobble `random(-0.5, 0.5)` and hue
`Math.floor(Math.random() * 360)`. -/
def launchRocket (d : LaunchDraws α) (targetX targetY canvasHeight : α)
    (rockets : List (Rocket α)) : List (Rocket α) :=
  let startX := targetX
  let startY := canvasHeight
  let hue := ⌊d.hueU * 360⌋
  let speed := random d.speedU 12 15
  rockets ++ [{ x := startX
                y := startY
                targetY := targetY
                vx := random d.vxU (-(1/2)) (1/2)
                vy := -speed
                hue := hue
                trailTimer := 0 }]

/-- Rocket pool after `k` frames of the render loop, with `os f` the draw
oracle of frame `f`; the particle pool fed to each pass is irrelevant to the
surviving rockets. -/
def rocketEvolve (cfg : FireworkConfig α) (T : Trig α)
    (os : ℕ → ℕ → RocketDraws α) : ℕ → List (Rocket α) → List (Rocket α)
  | 0, rs => rs
  | k + 1, rs => (updateRockets cfg T (os k) (rocketEvolve cfg T os k rs) []).1

/-- Squared distance between points `i` and `j` of a constellation's shape. -/
def sqDist (c : Constellation α) (i j : ℕ) : α :=
  ((c.stars.getD i default).x - (c.stars.getD j default).x) ^ 2 +
    ((c.stars.getD i default).y - (c.stars.getD j default).y) ^ 2

theorem length_take_of_le {β : Type} {n : ℕ} {l : List β} (h : n ≤ l.length) :
    (l.take n).length = n := by
  simp [List.length_take, Nat.min_eq_left h]

theorem particlePass_take_drop (cfg : FireworkConfig α) :
    ∀ (n : ℕ) (ps : List (Particle α)), n ≤ ps.length →
      particlePass cfg n ps =
        ((ps.take n).map (stepParticle cfg)).filter (fun p => !decide (p.alpha ≤ 0)) ++
          ps.drop n := by
  intro n
  induction n with
  | zero => intro ps _; simp [particlePass]
  | succ n ih =>
    intro ps hn
    have h : n < ps.length := hn
    have hset : ps.set n (stepParticle cfg ps[n]) =
        ps.take n ++ stepParticle cfg ps[n] :: ps.drop (n + 1) := by
      rw [List.set_eq_take_append_cons_drop, if_pos h]
    have htake : (ps.take n).length = n := length_take_of_le (Nat.le_of_lt h)
    have htakeS : ps.take (n + 1) = ps.take n ++ [ps[n]] := by
      rw [List.take_succ, List.getElem?_eq_getElem h]
      rfl
    rw [particlePass, dif_pos h]
    by_cases hq : (stepParticle cfg ps[n]).alpha ≤ 0
    · rw [if_pos hq]
      have herase : (ps.set n (stepParticle cfg ps[n])).eraseIdx n =
          ps.take n ++ ps.drop (n + 1) := by
        rw [hset, List.eraseIdx_eq_take_drop_succ,
          List.take_left' htake]
        congr 1
        have hassoc : ps.take n ++ stepParticle cfg ps[n] :: ps.drop (n + 1) =
            (ps.take n ++ [stepParticle cfg ps[n]]) ++ ps.drop (n + 1) := by
          simp
        rw [hassoc, List.drop_left']
        simp [htake]
      have hlen : n ≤ (ps.take n ++ ps.drop (n + 1)).length := by
        simp [htake]
      rw [herase, ih _ hlen, List.take_left' htake, List.drop_left' htake, htakeS,
        List.map_append, List.filter_append]
      simp [hq]
    · rw [if_neg hq]
      have hlen : n ≤ (ps.set n (stepParticle cfg ps[n])).length := by
        simp
        omega
      rw [ih _ hlen, hset, List.take_left' htake, List.drop_left' htake, htakeS,
        List.map_append, List.filter_append]
      simp [hq]

theorem updateParticles_eq (cfg : FireworkConfig α) (ps : List (Particle α)) :
    updateParticles cfg ps =
      (ps.map (stepParticle cfg)).filter (fun p => !decide (p.alpha ≤ 0)) := by
  have h := particlePass_take_drop cfg ps.length ps le_rfl
  simpa [updateParticles] using h

theorem rocketContribs_congr (cfg : FireworkConfig α) (T : Trig α) (o : ℕ → RocketDraws α) :
    ∀ (n : ℕ) (rs rs' : List (Rocket α)),
      (∀ i, i < n → rs.getD i default = rs'.getD i default) →
      rocketContribs cfg T o rs n = rocketContribs cfg T o rs' n := by
  intro n
  induction n with
  | zero => intro rs rs' _; rfl
  | succ n ih =>
    intro rs rs' hagree
    rw [rocketContribs, rocketContribs, hagree n (Nat.lt_succ_self n),
      ih rs rs' (fun i hi => hagree i (Nat.lt_succ_of_lt hi))]

theorem rocketPass_take_drop (cfg : FireworkConfig α) (T : Trig α) (o : ℕ → RocketDraws α) :
    ∀ (n : ℕ) (rs : List (Rocket α)) (ps : List (Particle α)), n ≤ rs.length →
      rocketPass cfg T o n rs ps =
        (((rs.take n).map stepRocket).filter (fun r => !decide (r.y ≤ r.targetY)) ++
            rs.drop n,
          ps ++ rocketContribs cfg T o rs n) := by
  intro n
  induction n with
  | zero => intro rs ps _; simp [rocketPass, rocketContribs]
  | succ n ih =>
    intro rs ps hn
    have h : n < rs.length := hn
    have hset : rs.set n (stepRocket rs[n]) =
        rs.take n ++ stepRocket rs[n] :: rs.drop (n + 1) := by
      rw [List.set_eq_take_append_cons_drop, if_pos h]
    have htake : (rs.take n).length = n := length_take_of_le (Nat.le_of_lt h)
    have htakeS : rs.take (n + 1) = rs.take n ++ [rs[n]] := by
      rw [List.take_succ, List.getElem?_eq_getElem h]
      rfl
    have hgetD : rs.getD n default = rs[n] := List.getD_eq_getElem rs default h
    have hagreeSet : ∀ i, i < n →
        (rs.set n (stepRocket rs[n])).getD i default = rs.getD i default := by
      intro i hi
      simp [List.getD_eq_getElem?_getD, List.getElem?_set_ne (by omega : n ≠ i)]
    have hcontrib : rocketContribution cfg T (o n) rs[n] =
        (if (o n).emit < 1/2 then [trailParticle (o n) (stepRocket rs[n])] else []) ++
          (if (stepRocket rs[n]).y ≤ (stepRocket rs[n]).targetY then
            burstList cfg T (stepRocket rs[n]).x (stepRocket rs[n]).targetY
              (stepRocket rs[n]).hue (o n).burst
          else []) := rfl
    rw [rocketPass, dif_pos h]
    by_cases hdet : (stepRocket rs[n]).y ≤ (stepRocket rs[n]).targetY
    · rw [if_pos hdet]
      have herase : (rs.set n (stepRocket rs[n])).eraseIdx n =
          rs.take n ++ rs.drop (n + 1) := by
        rw [hset, List.eraseIdx_eq_take_drop_succ, List.take_left' htake]
        congr 1
        have hassoc : rs.take n ++ stepRocket rs[n] :: rs.drop (n + 1) =
            (rs.take n ++ [stepRocket rs[n]]) ++ rs.drop (n + 1) := by
          simp
        rw [hassoc, List.drop_left']
        simp [htake]
      have hagreeErase : ∀ i, i < n →
          ((rs.set n (stepRocket rs[n])).eraseIdx n).getD i default =
            rs.getD i default := by
        intro i hi
        rw [herase]
        simp [List.getD_eq_getElem?_getD, List.getElem?_append_left,
          List.getElem?_take_of_lt hi, htake, hi]
      have hlen : n ≤ ((rs.set n (stepRocket rs[n])).eraseIdx n).length := by
        rw [herase]
        simp [htake]
      rw [ih _ _ hlen, rocketContribs_congr cfg T o n _ rs hagreeErase, herase,
        List.take_left' htake, List.drop_left' htake, htakeS, List.map_append,
        List.filter_append, rocketContribs, hgetD, Prod.mk.injEq]
      refine ⟨by simp [hdet], ?_⟩
      rw [hcontrib, if_pos hdet]
      simp only [createFirework]
      by_cases hemit : (o n).emit < 1/2
      · rw [if_pos hemit, if_pos hemit]
        simp
      · rw [if_neg hemit, if_neg hemit]
        simp
    · rw [if_neg hdet]
      have hlen : n ≤ (rs.set n (stepRocket rs[n])).length := by
        simp
        omega
      rw [ih _ _ hlen, rocketContribs_congr cfg T o n _ rs hagreeSet, hset,
        List.take_left' htake, List.drop_left' htake, htakeS, List.map_append,
        List.filter_append, rocketContribs, hgetD, Prod.mk.injEq]
      refine ⟨by simp [hdet], ?_⟩
      rw [hcontrib, if_neg hdet]
      by_cases hemit : (o n).emit < 1/2
      · rw [if_pos hemit, if_pos hemit]
        simp
      · rw [if_neg hemit, if_neg hemit]
        simp

theorem updateRockets_eq (cfg : FireworkConfig α) (T : Trig α) (o : ℕ → RocketDraws α)
    (rs : List (Rocket α)) (ps : List (Particle α)) :
    updateRockets cfg T o rs ps =
      ((rs.map stepRocket).filter (fun r => !decide (r.y ≤ r.targetY)),
        ps ++ rocketContribs cfg T o rs rs.length) := by
  have h := rocketPass_take_drop cfg T o rs.length rs ps le_rfl
  simpa [updateRockets] using h

theorem filter_map_eq_foldr {β γ : Type} (f : β → γ) (pred : γ → Bool) :
    ∀ l : List β, (l.map f).filter pred =
      l.foldr (fun p acc => if pred (f p) then f p :: acc else acc) [] := by
  intro l
  induction l with
  | nil => rfl
  | cons a l ih =>
    by_cases h : pred (f a) <;> simp [List.filter_cons, h, ih]

/-- C1: one frame step updates every live particle by exactly the sequence
`vx *= friction; vy *= friction; vy += gravity; x += vx; y += vy;
alpha -= decay` (position advanced by the new velocity, gravity added after
friction), and the particle is dropped from the pool in the same pass the
instant the new alpha is `≤ 0`. -/
theorem particle_integration_sequence (cfg : FireworkConfig ℚ) (ps : List (Particle ℚ)) :
    particlePass cfg ps.length ps =
      ps.foldr (fun p acc =>
        if p.alpha - p.decay ≤ 0 then acc
        else
          { x := p.x + p.vx * cfg.friction
            y := p.y + (p.vy * cfg.friction + cfg.gravity)
            vx := p.vx * cfg.friction
            vy := p.vy * cfg.friction + cfg.gravity
            alpha := p.alpha - p.decay
            color := p.color
            size := p.size
            decay := p.decay } :: acc) [] := by
  have h1 := particlePass_take_drop cfg ps.length ps le_rfl
  rw [List.take_length, List.drop_length, List.append_nil] at h1
  rw [h1, filter_map_eq_foldr (stepParticle cfg) (fun p => !decide (p.alpha ≤ 0))]
  congr 1
  funext p acc
  by_cases h : (stepParticle cfg p).alpha ≤ 0
  · have hb : ¬ ((!decide ((stepParticle cfg p).alpha ≤ 0)) = true) := by simp [h]
    rw [if_neg hb, if_pos (show p.alpha - p.decay ≤ 0 from h)]
  · have hb : (!decide ((stepParticle cfg p).alpha ≤ 0)) = true := by simp [h]
    rw [if_pos hb, if_neg (show ¬ p.alpha - p.decay ≤ 0 from h)]
    rfl

/-- C5: in a single pass over the particle pool, every particle present at the
start is integrated exactly once and no particle is visited twice: for every
pool content and every resulting pattern of removals the pass coincides with
mapping the integration step over the pool and then dropping the dead
particles. -/
theorem particle_pass_no_skip (cfg : FireworkConfig ℚ) (ps : List (Particle ℚ)) :
    particlePass cfg ps.length ps =
      (ps.map (stepParticle cfg)).filter (fun p => !decide (p.alpha ≤ 0)) := by
  have h1 := particlePass_take_drop cfg ps.length ps le_rfl
  simpa using h1

theorem stepParticle_decay_invariant (cfg : FireworkConfig α) (p : Particle α) :
    ∀ k : ℕ, ((stepParticle cfg)^[k] p).decay = p.decay := by
  intro k
  induction k with
  | zero => rfl
  | succ k ih =>
    rw [Function.iterate_succ_apply']
    exact ih

theorem stepParticle_alpha_iterate (cfg : FireworkConfig α) (p : Particle α) :
    ∀ k : ℕ, ((stepParticle cfg)^[k] p).alpha = p.alpha - k * p.decay := by
  intro k
  induction k with
  | zero => simp
  | succ k ih =>
    rw [Function.iterate_succ_apply']
    have hstep : (stepParticle cfg ((stepParticle cfg)^[k] p)).alpha =
        ((stepParticle cfg)^[k] p).alpha - ((stepParticle cfg)^[k] p).decay := rfl
    rw [hstep, ih, stepParticle_decay_invariant]
    push_cast
    ring

theorem updateParticles_singleton (cfg : FireworkConfig α) (q : Particle α) :
    updateParticles cfg [q] =
      if (stepParticle cfg q).alpha ≤ 0 then [] else [stepParticle cfg q] := by
  rw [updateParticles_eq]
  by_cases h : (stepParticle cfg q).alpha ≤ 0 <;> simp [h]

theorem updateParticles_iterate_singleton (cfg : FireworkConfig α) (p : Particle α) :
    ∀ k : ℕ, (updateParticles cfg)^[k] [p] = [] ∨
      ((updateParticles cfg)^[k] [p] = [(stepParticle cfg)^[k] p] ∧
        (k = 0 ∨ 0 < ((stepParticle cfg)^[k] p).alpha)) := by
  intro k
  induction k with
  | zero => exact Or.inr ⟨rfl, Or.inl rfl⟩
  | succ k ih =>
    rw [Function.iterate_succ_apply']
    rcases ih with hnil | ⟨hone, _⟩
    · left
      rw [hnil]
      rfl
    · rw [hone, updateParticles_singleton]
      by_cases ha : (stepParticle cfg ((stepParticle cfg)^[k] p)).alpha ≤ 0
      · left
        rw [if_pos ha]
      · right
        refine ⟨?_, Or.inr ?_⟩
        · rw [if_neg ha, Function.iterate_succ_apply']
        · rw [Function.iterate_succ_apply']
          exact lt_of_not_le ha

/-- C4: a particle with positive decay and initial alpha at most `1` has
monotonically non-increasing alpha across integration steps, and after
`⌈1 / decay⌉` steps its alpha is `≤ 0` and it has been removed from (a pool
holding) it. -/
theorem particle_death (cfg : FireworkConfig ℚ) (p : Particle ℚ)
    (hd : 0 < p.decay) (ha : p.alpha ≤ 1) :
    (∀ k : ℕ, ((stepParticle cfg)^[k + 1] p).alpha ≤ ((stepParticle cfg)^[k] p).alpha) ∧
      ((stepParticle cfg)^[(⌈1 / p.decay⌉).toNat] p).alpha ≤ 0 ∧
      (updateParticles cfg)^[(⌈1 / p.decay⌉).toNat] [p] = [] := by
  have hceil : (1 : ℚ) / p.decay ≤ ((⌈1 / p.decay⌉ : ℤ) : ℚ) := Int.le_ceil _
  have hpos : 0 < ⌈(1 : ℚ) / p.decay⌉ := Int.ceil_pos.mpr (by positivity)
  have hcast : (((⌈1 / p.decay⌉ : ℤ).toNat : ℚ)) = ((⌈1 / p.decay⌉ : ℤ) : ℚ) := by
    rw [← Int.cast_natCast, Int.toNat_of_nonneg (le_of_lt hpos)]
  have hnd : 1 ≤ ((⌈1 / p.decay⌉ : ℤ).toNat : ℚ) * p.decay := by
    have h1 : (1 : ℚ) / p.decay * p.decay = 1 := div_mul_cancel₀ 1 (ne_of_gt hd)
    rw [hcast]
    calc (1 : ℚ) = 1 / p.decay * p.decay := h1.symm
      _ ≤ ((⌈1 / p.decay⌉ : ℤ) : ℚ) * p.decay :=
          mul_le_mul_of_nonneg_right hceil (le_of_lt hd)
  have halphan : ((stepParticle cfg)^[(⌈1 / p.decay⌉).toNat] p).alpha ≤ 0 := by
    rw [stepParticle_alpha_iterate]
    linarith
  refine ⟨?_, halphan, ?_⟩
  · intro k
    rw [stepParticle_alpha_iterate, stepParticle_alpha_iterate]
    push_cast
    nlinarith [hd.le, (Nat.cast_nonneg k : (0 : ℚ) ≤ (k : ℚ))]
  · have hn1 : 1 ≤ (⌈(1 : ℚ) / p.decay⌉).toNat := by
      have := Int.toNat_le_toNat hpos
      simpa using this
    rcases updateParticles_iterate_singleton cfg p (⌈(1 : ℚ) / p.decay⌉).toNat with
      hnil | ⟨_, hk0 | hk⟩
    · exact hnil
    · omega
    · exact absurd halphan (not_le.mpr hk)

/-- Concrete configuration over `ℚ` used by the executable checks. -/
def cfgQ : FireworkConfig ℚ :=
  { particleCount := 1
    gravity := 15/100
    friction := 96/100
    spread := 8
    decayRate := 15/1000
    hueVariance := 30
    baseSize := 2
    trailEffect := true
    starfield := true
    showConstellations := true }

/-- Concrete particle over `ℚ` used by the executable checks. -/
def pQ : Particle ℚ := ⟨0, 0, 0, 0, 1, ⟨0, 0, 0⟩, 1, 1/2⟩

theorem particle_death_witness :
    (0 : ℚ) < pQ.decay ∧ pQ.alpha ≤ 1 ∧
      ((∀ k : ℕ, ((stepParticle cfgQ)^[k + 1] pQ).alpha ≤
          ((stepParticle cfgQ)^[k] pQ).alpha) ∧
        ((stepParticle cfgQ)^[(⌈1 / pQ.decay⌉).toNat] pQ).alpha ≤ 0 ∧
        (updateParticles cfgQ)^[(⌈1 / pQ.decay⌉).toNat] [pQ] = []) :=
  ⟨by norm_num [pQ], by norm_num [pQ],
    particle_death cfgQ pQ (by norm_num [pQ]) (by norm_num [pQ])⟩

theorem stepRocket_iterate_fields (r : Rocket α) :
    ∀ k : ℕ, ((stepRocket^[k] r).targetY = r.targetY ∧ (stepRocket^[k] r).vx = r.vx ∧
      (stepRocket^[k] r).vy = r.vy ∧ (stepRocket^[k] r).hue = r.hue) ∧
      (stepRocket^[k] r).y = r.y + k * r.vy := by
  intro k
  induction k with
  | zero => simp
  | succ k ih =>
    rw [Function.iterate_succ_apply']
    obtain ⟨⟨ht, hvx, hvy, hh⟩, hy⟩ := ih
    refine ⟨⟨ht, hvx, hvy, hh⟩, ?_⟩
    have hstep : (stepRocket (stepRocket^[k] r)).y =
        (stepRocket^[k] r).y + (stepRocket^[k] r).vy := rfl
    rw [hstep, hy, hvy]
    push_cast
    ring

theorem rocketEvolve_singleton (cfg : FireworkConfig α) (T : Trig α)
    (os : ℕ → ℕ → RocketDraws α) (r : Rocket α) :
    ∀ k : ℕ, (∀ j : ℕ, 1 ≤ j → j ≤ k → ¬ (stepRocket^[j] r).y ≤ r.targetY) →
      rocketEvolve cfg T os k [r] = [stepRocket^[k] r] := by
  intro k
  induction k with
  | zero => intro _; rfl
  | succ k ih =>
    intro hsurv
    rw [rocketEvolve, ih (fun j h1 h2 => hsurv j h1 (Nat.le_succ_of_le h2)),
      updateRockets_eq]
    have hcond : ¬ ((stepRocket (stepRocket^[k] r)).y ≤
        (stepRocket (stepRocket^[k] r)).targetY) := by
      have htar : (stepRocket (stepRocket^[k] r)).targetY = r.targetY := by
        rw [← Function.iterate_succ_apply' stepRocket k r]
        exact ((stepRocket_iterate_fields r (k + 1)).1).1
      rw [htar, ← Function.iterate_succ_apply' stepRocket k r]
      exact hsurv (k + 1) (by omega) le_rfl
    rw [List.map_cons, List.map_nil,
      List.filter_cons_of_pos (by rw [decide_eq_false hcond, Bool.not_false]),
      List.filter_nil, ← Function.iterate_succ_apply' stepRocket k r]

/-- C3: a rocket whose termination condition `y ≤ targetY` becomes true in a frame is
removed in that same pass after exactly one burst creation; with `y = 600`,
`targetY = 300` and `vy = -15` it survives every pass up to tick `19` and
detonates exactly at tick `20`. -/
theorem rocket_burst_handoff (cfg : FireworkConfig ℚ) (T : Trig ℚ)
    (os : ℕ → ℕ → RocketDraws ℚ) (r : Rocket ℚ)
    (hy : r.y = 600) (ht : r.targetY = 300) (hv : r.vy = -15) :
    (∀ k : ℕ, k ≤ 19 → rocketEvolve cfg T os k [r] = [stepRocket^[k] r]) ∧
      rocketEvolve cfg T os 20 [r] = [] ∧
      ∀ (o : ℕ → RocketDraws ℚ) (ps : List (Particle ℚ)),
        updateRockets cfg T o (rocketEvolve cfg T os 19 [r]) ps =
          ([],
            (if (o 0).emit < 1/2 then ps ++ [trailParticle (o 0) (stepRocket^[20] r)]
             else ps) ++
              burstList cfg T (stepRocket^[20] r).x 300 r.hue (o 0).burst) := by
  have hyk : ∀ j : ℕ, (stepRocket^[j] r).y = 600 - 15 * j := by
    intro j
    rw [(stepRocket_iterate_fields r j).2, hy, hv]
    ring
  have hsurv : ∀ j : ℕ, 1 ≤ j → j ≤ 19 → ¬ (stepRocket^[j] r).y ≤ r.targetY := by
    intro j h1 h19
    rw [hyk, ht, not_le]
    have : (j : ℚ) ≤ 19 := by exact_mod_cast h19
    linarith
  have hpresent : ∀ k : ℕ, k ≤ 19 → rocketEvolve cfg T os k [r] = [stepRocket^[k] r] :=
    fun k hk => rocketEvolve_singleton cfg T os r k
      (fun j h1 h2 => hsurv j h1 (le_trans h2 hk))
  have hdet20 : (stepRocket^[20] r).y ≤ (stepRocket^[20] r).targetY := by
    rw [hyk, ((stepRocket_iterate_fields r 20).1).1, ht]
    norm_num
  refine ⟨hpresent, ?_, ?_⟩
  · rw [rocketEvolve, hpresent 19 (by omega), updateRockets_eq]
    have hcond : (stepRocket (stepRocket^[19] r)).y ≤
        (stepRocket (stepRocket^[19] r)).targetY := by
      rw [← Function.iterate_succ_apply' stepRocket 19 r]
      exact hdet20
    show List.filter _ _ = []
    rw [List.map_cons, List.map_nil,
      List.filter_cons_of_neg (by rw [decide_eq_true hcond, Bool.not_true]; exact
        Bool.false_ne_true),
      List.filter_nil]
  · intro o ps
    rw [hpresent 19 (by omega), updateRockets_eq]
    have hcond : (stepRocket (stepRocket^[19] r)).y ≤
        (stepRocket (stepRocket^[19] r)).targetY := by
      rw [← Function.iterate_succ_apply' stepRocket 19 r]
      exact hdet20
    rw [Prod.mk.injEq]
    constructor
    · rw [List.map_cons, List.map_nil,
        List.filter_cons_of_neg (by rw [decide_eq_true hcond, Bool.not_true]; exact
          Bool.false_ne_true),
        List.filter_nil]
    · rw [List.length_singleton]
      have hcontrib : rocketContribs cfg T o [stepRocket^[19] r] 1 =
          rocketContribution cfg T (o 0) (stepRocket^[19] r) ++ [] := rfl
      rw [hcontrib, List.append_nil]
      have hexp : rocketContribution cfg T (o 0) (stepRocket^[19] r) =
          (if (o 0).emit < 1/2 then
            [trailParticle (o 0) (stepRocket (stepRocket^[19] r))] else []) ++
            (if (stepRocket (stepRocket^[19] r)).y ≤
                (stepRocket (stepRocket^[19] r)).targetY then
              burstList cfg T (stepRocket (stepRocket^[19] r)).x
                (stepRocket (stepRocket^[19] r)).targetY
                (stepRocket (stepRocket^[19] r)).hue (o 0).burst
            else []) := rfl
      rw [hexp, if_pos hcond]
      have htar : (stepRocket (stepRocket^[19] r)).targetY = 300 := by
        rw [← Function.iterate_succ_apply' stepRocket 19 r,
          ((stepRocket_iterate_fields r 20).1).1, ht]
      have hhue : (stepRocket (stepRocket^[19] r)).hue = r.hue := by
        rw [← Function.iterate_succ_apply' stepRocket 19 r]
        exact ((stepRocket_iterate_fields r 20).1).2.2.2
      rw [htar, hhue, ← Function.iterate_succ_apply' stepRocket 19 r]
      by_cases hemit : (o 0).emit < 1/2
      · rw [if_pos hemit, if_pos hemit, List.append_assoc]
      · rw [if_neg hemit, if_neg hemit, List.nil_append]

/-- Concrete trigonometric stub over `ℚ`; the rocket-pool statements it
witnesses hold for every `Trig`. -/
def trigQ : Trig ℚ := ⟨fun _ => 1, fun _ => 0, 0⟩

/-- Concrete rocket matching the handoff scenario. -/
def r3Q : Rocket ℚ := ⟨400, 600, 300, 0, -15, 120, 0⟩

/-- Concrete draw oracle over `ℚ`. -/
def osQ : ℕ → ℕ → RocketDraws ℚ := fun _ _ => ⟨0, 1/2, 1/2, 1/2, 1/2, 1/2, 0, fun _ => 0⟩

theorem rocket_burst_handoff_witness :
    r3Q.y = 600 ∧ r3Q.targetY = 300 ∧ r3Q.vy = -15 ∧
      ((∀ k : ℕ, k ≤ 19 → rocketEvolve cfgQ trigQ osQ k [r3Q] = [stepRocket^[k] r3Q]) ∧
        rocketEvolve cfgQ trigQ osQ 20 [r3Q] = [] ∧
        ∀ (o : ℕ → RocketDraws ℚ) (ps : List (Particle ℚ)),
          updateRockets cfgQ trigQ o (rocketEvolve cfgQ trigQ osQ 19 [r3Q]) ps =
            ([],
              (if (o 0).emit < 1/2 then ps ++ [trailParticle (o 0) (stepRocket^[20] r3Q)]
               else ps) ++
                burstList cfgQ trigQ (stepRocket^[20] r3Q).x 300 r3Q.hue (o 0).burst)) :=
  ⟨rfl, rfl, rfl, rocket_burst_handoff cfgQ trigQ osQ r3Q rfl rfl rfl⟩

/-- C10: on detonation the burst origin is `(rocket.x, rocket.targetY)` — the
target altitude, not the rocket's actual `y` at detonation time — and every
burst particle starts exactly there. -/
theorem burst_origin_is_targetY (cfg : FireworkConfig ℚ) (T : Trig ℚ)
    (o : ℕ → RocketDraws ℚ) (r : Rocket ℚ) (hdet : (stepRocket r).y ≤ r.targetY) :
    (∀ q ∈ burstList cfg T (stepRocket r).x r.targetY r.hue (o 0).burst,
        q.x = (stepRocket r).x ∧ q.y = r.targetY) ∧
      ∀ ps : List (Particle ℚ),
        updateRockets cfg T o [r] ps =
          ([],
            (if (o 0).emit < 1/2 then ps ++ [trailParticle (o 0) (stepRocket r)]
             else ps) ++
              burstList cfg T (stepRocket r).x r.targetY r.hue (o 0).burst) := by
  have hdet' : (stepRocket r).y ≤ (stepRocket r).targetY := hdet
  constructor
  · intro q hq
    rw [burstList] at hq
    obtain ⟨i, _, rfl⟩ := List.mem_map.mp hq
    exact ⟨rfl, rfl⟩
  · intro ps
    rw [updateRockets_eq, Prod.mk.injEq]
    constructor
    · rw [List.map_cons, List.map_nil,
        List.filter_cons_of_neg (by rw [decide_eq_true hdet', Bool.not_true]; exact
          Bool.false_ne_true),
        List.filter_nil]
    · rw [List.length_singleton]
      have hcontrib : rocketContribs cfg T o [r] 1 =
          rocketContribution cfg T (o 0) r ++ [] := rfl
      rw [hcontrib, List.append_nil]
      have hexp : rocketContribution cfg T (o 0) r =
          (if (o 0).emit < 1/2 then [trailParticle (o 0) (stepRocket r)] else []) ++
            (if (stepRocket r).y ≤ (stepRocket r).targetY then
              burstList cfg T (stepRocket r).x (stepRocket r).targetY (stepRocket r).hue
                (o 0).burst
            else []) := rfl
      rw [hexp, if_pos hdet']
      by_cases hemit : (o 0).emit < 1/2
      · rw [if_pos hemit, if_pos hemit, List.append_assoc]
        rfl
      · rw [if_neg hemit, if_neg hemit, List.nil_append]
        rfl

/-- Concrete rocket that overshoots its target on the detonation step. -/
def r10Q : Rocket ℚ := ⟨100, 310, 300, 0, -15, 200, 0⟩

theorem burst_origin_is_targetY_witness :
    (stepRocket r10Q).y ≤ r10Q.targetY ∧
      ((∀ q ∈ burstList cfgQ trigQ (stepRocket r10Q).x r10Q.targetY r10Q.hue
            (osQ 0 0).burst,
          q.x = (stepRocket r10Q).x ∧ q.y = r10Q.targetY) ∧
        ∀ ps : List (Particle ℚ),
          updateRockets cfgQ trigQ (osQ 0) [r10Q] ps =
            ([],
              (if (osQ 0 0).emit < 1/2 then
                ps ++ [trailParticle (osQ 0 0) (stepRocket r10Q)]
               else ps) ++
                burstList cfgQ trigQ (stepRocket r10Q).x r10Q.targetY r10Q.hue
                  (osQ 0 0).burst)) :=
  ⟨by norm_num [stepRocket, r10Q],
    burst_origin_is_targetY cfgQ trigQ (osQ 0) r10Q (by norm_num [stepRocket, r10Q])⟩

/-- C6: a spawn request at `(px, py)` appends exactly one rocket starting at
`(px, canvas height)` with target altitude `py`, vertical speed in
`[-15, -12]`, horizontal jitter in `[-1/2, 1/2]` and a fresh hue in
`[0, 360)`; and the rocket pass never alters any rocket's velocity. -/
theorem spawn_gateway (d : LaunchDraws ℚ) (px py canvasH : ℚ)
    (hh0 : 0 ≤ d.hueU) (hh1 : d.hueU < 1) (hs0 : 0 ≤ d.speedU) (hs1 : d.speedU < 1)
    (hv0 : 0 ≤ d.vxU) (hv1 : d.vxU < 1) (rs : List (Rocket ℚ)) :
    (∃ r : Rocket ℚ,
      launchRocket d px py canvasH rs = rs ++ [r] ∧
        r.x = px ∧ r.y = canvasH ∧ r.targetY = py ∧
        -15 ≤ r.vy ∧ r.vy ≤ -12 ∧ -(1/2) ≤ r.vx ∧ r.vx ≤ 1/2 ∧
        0 ≤ r.hue ∧ r.hue < 360) ∧
      ∀ (cfg : FireworkConfig ℚ) (T : Trig ℚ) (o : ℕ → RocketDraws ℚ)
        (rs0 : List (Rocket ℚ)) (ps : List (Particle ℚ)) (q : Rocket ℚ),
        q ∈ (updateRockets cfg T o rs0 ps).1 →
        ∃ r0 ∈ rs0, q = stepRocket r0 ∧ q.vx = r0.vx ∧ q.vy = r0.vy := by
  constructor
  · refine ⟨_, rfl, rfl, rfl, rfl, ?_, ?_, ?_, ?_, ?_, ?_⟩
    · show -15 ≤ -(random d.speedU 12 15)
      simp only [random]
      nlinarith [hs0, hs1]
    · show -(random d.speedU 12 15) ≤ -12
      simp only [random]
      nlinarith [hs0, hs1]
    · show -(1/2) ≤ random d.vxU (-(1/2)) (1/2)
      simp only [random]
      nlinarith [hv0, hv1]
    · show random d.vxU (-(1/2)) (1/2) ≤ 1/2
      simp only [random]
      nlinarith [hv0, hv1]
    · show (0 : ℤ) ≤ ⌊d.hueU * 360⌋
      refine Int.le_floor.mpr ?_
      push_cast
      positivity
    · show ⌊d.hueU * 360⌋ < (360 : ℤ)
      refine Int.floor_lt.mpr ?_
      push_cast
      nlinarith [hh1]
  · intro cfg T o rs0 ps q hq
    rw [updateRockets_eq] at hq
    obtain ⟨hmem, _⟩ := List.mem_filter.mp hq
    obtain ⟨r0, hr0, rfl⟩ := List.mem_map.mp hmem
    exact ⟨r0, hr0, rfl, rfl, rfl⟩

/-- Concrete launch draws over `ℚ`. -/
def dLQ : LaunchDraws ℚ := ⟨1/2, 1/2, 1/2⟩

theorem spawn_gateway_witness :
    (0 : ℚ) ≤ dLQ.hueU ∧ dLQ.hueU < 1 ∧ (0 : ℚ) ≤ dLQ.speedU ∧ dLQ.speedU < 1 ∧
      (0 : ℚ) ≤ dLQ.vxU ∧ dLQ.vxU < 1 ∧
      ((∃ r : Rocket ℚ,
        launchRocket dLQ 400 250 600 [] = [] ++ [r] ∧
          r.x = 400 ∧ r.y = 600 ∧ r.targetY = 250 ∧
          -15 ≤ r.vy ∧ r.vy ≤ -12 ∧ -(1/2) ≤ r.vx ∧ r.vx ≤ 1/2 ∧
          0 ≤ r.hue ∧ r.hue < 360) ∧
        ∀ (cfg : FireworkConfig ℚ) (T : Trig ℚ) (o : ℕ → RocketDraws ℚ)
          (rs0 : List (Rocket ℚ)) (ps : List (Particle ℚ)) (q : Rocket ℚ),
          q ∈ (updateRockets cfg T o rs0 ps).1 →
          ∃ r0 ∈ rs0, q = stepRocket r0 ∧ q.vx = r0.vx ∧ q.vy = r0.vy) :=
  ⟨by norm_num [dLQ], by norm_num [dLQ], by norm_num [dLQ], by norm_num [dLQ],
    by norm_num [dLQ], by norm_num [dLQ],
    spawn_gateway dLQ 400 250 600 (by norm_num [dLQ]) (by norm_num [dLQ])
      (by norm_num [dLQ]) (by norm_num [dLQ]) (by norm_num [dLQ]) (by norm_num [dLQ]) []⟩

theorem sqDist_of_stars_eq (c1 c2 : Constellation ℚ) (h : c1.stars = c2.stars)
    (i j : ℕ) : sqDist c1 i j = sqDist c2 i j := by
  simp [sqDist, h]

theorem stepConstellation_stars_translate (w : ℚ) (c : Constellation ℚ) :
    ∃ dx dy : ℚ, (stepConstellation w c).stars =
      c.stars.map (fun p => ⟨p.x + dx, p.y + dy⟩) := by
  simp only [stepConstellation]
  by_cases hwrap :
      (((c.stars.map fun p => (⟨p.x + c.vx, p.y + c.vy⟩ : Pt ℚ)).headD default).x) <
        -(200 : ℚ)
  · refine ⟨c.vx + (w + 200 + 200), c.vy, ?_⟩
    rw [if_pos hwrap, List.map_map]
    refine List.map_congr_left ?_
    intro p _
    show (⟨(p.x + c.vx) + (w + 200 + 200), p.y + c.vy⟩ : Pt ℚ) = _
    rw [add_assoc]
  · exact ⟨c.vx, c.vy, by rw [if_neg hwrap]⟩

theorem stepConstellation_length (w : ℚ) (c : Constellation ℚ) :
    (stepConstellation w c).stars.length = c.stars.length := by
  obtain ⟨dx, dy, hmap⟩ := stepConstellation_stars_translate w c
  rw [hmap, List.length_map]

theorem sqDist_translate (c : Constellation ℚ) (c' : Constellation ℚ) (dx dy : ℚ)
    (hs : c'.stars = c.stars.map (fun p => ⟨p.x + dx, p.y + dy⟩))
    (i j : ℕ) (hi : i < c.stars.length) (hj : j < c.stars.length) :
    sqDist c' i j = sqDist c i j := by
  have hgi : c'.stars.getD i default = ⟨(c.stars.getD i default).x + dx,
      (c.stars.getD i default).y + dy⟩ := by
    rw [hs, List.getD_eq_getElem _ _ (by simpa using hi), List.getElem_map,
      List.getD_eq_getElem _ _ hi]
  have hgj : c'.stars.getD j default = ⟨(c.stars.getD j default).x + dx,
      (c.stars.getD j default).y + dy⟩ := by
    rw [hs, List.getD_eq_getElem _ _ (by simpa using hj), List.getElem_map,
      List.getD_eq_getElem _ _ hj]
  rw [sqDist, sqDist, hgi, hgj]
  ring

/-- C9: constellation motion is rigid: the per-frame translation together with
the left-bound wrap shift preserves every pairwise squared distance between
the shape's points, over any number of frames. -/
theorem constellation_rigidity (w : ℚ) (c : Constellation ℚ) (k i j : ℕ)
    (hi : i < c.stars.length) (hj : j < c.stars.length) :
    sqDist ((stepConstellation w)^[k] c) i j = sqDist c i j := by
  induction k with
  | zero => rfl
  | succ k ih =>
    rw [Function.iterate_succ_apply']
    have hlen : ((stepConstellation w)^[k] c).stars.length = c.stars.length := by
      clear ih
      induction k with
      | zero => rfl
      | succ k ih2 =>
        rw [Function.iterate_succ_apply', stepConstellation_length, ih2]
    obtain ⟨dx, dy, hmap⟩ :=
      stepConstellation_stars_translate w ((stepConstellation w)^[k] c)
    rw [sqDist_translate ((stepConstellation w)^[k] c) _ dx dy hmap i j
      (hlen ▸ hi) (hlen ▸ hj), ih]

/-- Concrete constellation over `ℚ`. -/
def cQ : Constellation ℚ := ⟨[⟨0, 0⟩, ⟨30, 40⟩, ⟨-250, 7⟩], -3, 1, 1/5⟩

theorem constellation_rigidity_witness :
    0 < cQ.stars.length ∧ 1 < cQ.stars.length ∧
      sqDist ((stepConstellation 800)^[5] cQ) 0 1 = sqDist cQ 0 1 :=
  ⟨by norm_num [cQ], by norm_num [cQ],
    constellation_rigidity 800 cQ 5 0 1 (by norm_num [cQ]) (by norm_num [cQ])⟩

/-- C2: a burst with budget `N = particleCount` appends exactly `N` particles,
each with alpha `1`, velocity of magnitude at most `spread`, hue within `±20`
of the base hue, size in `[1, baseSize]` and decay in
`[decayRate/2, 3·decayRate/2]`. -/
theorem burst_creation (cfg : FireworkConfig ℝ) (x y : ℝ) (b : ℤ) (hueU : ℝ)
    (u : ℕ → ℝ) (hu : ∀ m : ℕ, 0 ≤ u m ∧ u m < 1)
    (hspread : 0 ≤ cfg.spread) (hsize : 1 ≤ cfg.baseSize) (hdecay : 0 ≤ cfg.decayRate)
    (pool : List (Particle ℝ)) :
    createFirework cfg realTrig x y (some b) hueU u pool =
        pool ++ burstList cfg realTrig x y b u ∧
      (createFirework cfg realTrig x y (some b) hueU u pool).length =
        pool.length + cfg.particleCount ∧
      ∀ p ∈ burstList cfg realTrig x y b u,
        p.x = x ∧ p.y = y ∧ p.alpha = 1 ∧
        p.vx ^ 2 + p.vy ^ 2 ≤ cfg.spread ^ 2 ∧
        b - 20 ≤ p.color.h ∧ p.color.h ≤ b + 20 ∧
        1 ≤ p.size ∧ p.size ≤ cfg.baseSize ∧
        cfg.decayRate * (1/2) ≤ p.decay ∧ p.decay ≤ cfg.decayRate * (3/2) := by
  refine ⟨rfl, ?_, ?_⟩
  · show (pool ++ burstList cfg realTrig x y b u).length = _
    rw [List.length_append, burstList, List.length_map, List.length_range]
  · intro p hp
    rw [burstList] at hp
    obtain ⟨i, _, rfl⟩ := List.mem_map.mp hp
    obtain ⟨hv0, hv1⟩ := hu (5 * i + 1)
    obtain ⟨hh0, hh1⟩ := hu (5 * i + 2)
    obtain ⟨hs0, hs1⟩ := hu (5 * i + 3)
    obtain ⟨hd0, hd1⟩ := hu (5 * i + 4)
    have hvlo : 0 ≤ random (u (5 * i + 1)) 0 cfg.spread := by
      rw [random]
      nlinarith
    have hvhi : random (u (5 * i + 1)) 0 cfg.spread ≤ cfg.spread := by
      rw [random]
      nlinarith
    refine ⟨rfl, rfl, rfl, ?_, ?_, ?_, ?_, ?_, ?_, ?_⟩
    · show (Real.cos (random (u (5 * i)) 0 (Real.pi * 2)) *
          random (u (5 * i + 1)) 0 cfg.spread) ^ 2 +
        (Real.sin (random (u (5 * i)) 0 (Real.pi * 2)) *
          random (u (5 * i + 1)) 0 cfg.spread) ^ 2 ≤ cfg.spread ^ 2
      rw [mul_pow, mul_pow, ← add_mul, Real.cos_sq_add_sin_sq, one_mul]
      exact pow_le_pow_left₀ hvlo hvhi 2
    · show b - 20 ≤ ⌊random (u (5 * i + 2)) ((b : ℝ) - 20) ((b : ℝ) + 20)⌋
      refine Int.le_floor.mpr ?_
      rw [random]
      push_cast
      nlinarith
    · show ⌊random (u (5 * i + 2)) ((b : ℝ) - 20) ((b : ℝ) + 20)⌋ ≤ b + 20
      refine le_of_lt (Int.floor_lt.mpr ?_)
      rw [random]
      push_cast
      nlinarith
    · show 1 ≤ random (u (5 * i + 3)) 1 cfg.baseSize
      rw [random]
      nlinarith
    · show random (u (5 * i + 3)) 1 cfg.baseSize ≤ cfg.baseSize
      rw [random]
      nlinarith
    · show cfg.decayRate * (1/2) ≤
        random (u (5 * i + 4)) (cfg.decayRate * (1/2)) (cfg.decayRate * (3/2))
      rw [random]
      nlinarith
    · show random (u (5 * i + 4)) (cfg.decayRate * (1/2)) (cfg.decayRate * (3/2)) ≤
        cfg.decayRate * (3/2)
      rw [random]
      nlinarith

/-- Concrete configuration over `ℝ` matching the app defaults. -/
noncomputable def cfgR : FireworkConfig ℝ :=
  { particleCount := 1
    gravity := 15/100
    friction := 96/100
    spread := 8
    decayRate := 15/1000
    hueVariance := 30
    baseSize := 2
    trailEffect := true
    starfield := true
    showConstellations := true }

theorem burst_creation_witness :
    (∀ m : ℕ, 0 ≤ (fun _ : ℕ => (0 : ℝ)) m ∧ (fun _ : ℕ => (0 : ℝ)) m < 1) ∧
      0 ≤ cfgR.spread ∧ 1 ≤ cfgR.baseSize ∧ 0 ≤ cfgR.decayRate ∧
      (createFirework cfgR realTrig 400 300 (some 30) 0 (fun _ => 0) [] =
          [] ++ burstList cfgR realTrig 400 300 30 (fun _ => 0) ∧
        (createFirework cfgR realTrig 400 300 (some 30) 0 (fun _ => 0) []).length =
          List.length ([] : List (Particle ℝ)) + cfgR.particleCount ∧
        ∀ p ∈ burstList cfgR realTrig 400 300 30 (fun _ => 0),
          p.x = 400 ∧ p.y = 300 ∧ p.alpha = 1 ∧
          p.vx ^ 2 + p.vy ^ 2 ≤ cfgR.spread ^ 2 ∧
          30 - 20 ≤ p.color.h ∧ p.color.h ≤ 30 + 20 ∧
          1 ≤ p.size ∧ p.size ≤ cfgR.baseSize ∧
          cfgR.decayRate * (1/2) ≤ p.decay ∧ p.decay ≤ cfgR.decayRate * (3/2)) :=
  ⟨fun _ => ⟨le_rfl, by norm_num⟩, by norm_num [cfgR], by norm_num [cfgR],
    by norm_num [cfgR],
    burst_creation cfgR 400 300 30 0 (fun _ => 0) (fun _ => ⟨le_rfl, by norm_num⟩)
      (by norm_num [cfgR]) (by norm_num [cfgR]) (by norm_num [cfgR]) []⟩

/-- C7 (amended): a trail particle emitted during the rocket pass is pushed
into the particle pool before the particle loop runs, so it is subject to the
standard integration rule already in the emitting tick: the end-of-tick pool is
the integration pass applied to the old particles together with the freshly
emitted trail particle. -/
theorem trail_integrated_same_tick (cfg : FireworkConfig ℚ) (T : Trig ℚ)
    (o : ℕ → RocketDraws ℚ) (w h : ℚ) (s : SimState ℚ) (r : Rocket ℚ)
    (hr : s.rockets = [r]) (hnd : ¬ (stepRocket r).y ≤ r.targetY) :
    (frameStep cfg T o w h s).particles =
      ((s.particles ++
          (if (o 0).emit < 1/2 then [trailParticle (o 0) (stepRocket r)] else [])).map
        (stepParticle cfg)).filter (fun p => !decide (p.alpha ≤ 0)) := by
  have hnd' : ¬ (stepRocket r).y ≤ (stepRocket r).targetY := hnd
  show updateParticles cfg (updateRockets cfg T o s.rockets s.particles).2 = _
  rw [hr]
  have hps : (updateRockets cfg T o [r] s.particles).2 =
      s.particles ++
        (if (o 0).emit < 1/2 then [trailParticle (o 0) (stepRocket r)] else []) := by
    rw [updateRockets_eq]
    show s.particles ++ rocketContribs cfg T o [r] 1 = _
    have hcontrib : rocketContribs cfg T o [r] 1 =
        rocketContribution cfg T (o 0) r ++ [] := rfl
    rw [hcontrib, List.append_nil]
    have hexp : rocketContribution cfg T (o 0) r =
        (if (o 0).emit < 1/2 then [trailParticle (o 0) (stepRocket r)] else []) ++
          (if (stepRocket r).y ≤ (stepRocket r).targetY then
            burstList cfg T (stepRocket r).x (stepRocket r).targetY (stepRocket r).hue
              (o 0).burst
          else []) := rfl
    rw [hexp, if_neg hnd', List.append_nil]
  rw [hps, updateParticles_eq]

/-- Configuration with the trail and starfield branches exercised by the
concrete frame checks. -/
def cfg7 : FireworkConfig ℚ :=
  { particleCount := 0
    gravity := 15/100
    friction := 96/100
    spread := 8
    decayRate := 15/1000
    hueVariance := 30
    baseSize := 2
    trailEffect := true
    starfield := false
    showConstellations := false }

/-- Concrete rocket far from its target. -/
def r7 : Rocket ℚ := ⟨100, 600, 0, 0, -15, 120, 0⟩

/-- Concrete simulation state holding one rocket. -/
def s7 : SimState ℚ := ⟨[], [], [r7], []⟩

theorem trail_counterexample :
    (frameStep cfg7 trigQ (osQ 0) 800 600 s7).particles =
        [stepParticle cfg7 (trailParticle (osQ 0 0) (stepRocket r7))] ∧
      stepParticle cfg7 (trailParticle (osQ 0 0) (stepRocket r7)) ≠
        trailParticle (osQ 0 0) (stepRocket r7) := by
  have hnd' : ¬ (stepRocket r7).y ≤ (stepRocket r7).targetY := by
    norm_num [stepRocket, r7]
  constructor
  · show updateParticles cfg7 (updateRockets cfg7 trigQ (osQ 0) s7.rockets s7.particles).2 =
      _
    have hps : (updateRockets cfg7 trigQ (osQ 0) [r7] []).2 =
        [trailParticle (osQ 0 0) (stepRocket r7)] := by
      rw [updateRockets_eq]
      show ([] : List (Particle ℚ)) ++ rocketContribs cfg7 trigQ (osQ 0) [r7] 1 = _
      have hcontrib : rocketContribs cfg7 trigQ (osQ 0) [r7] 1 =
          rocketContribution cfg7 trigQ (osQ 0 0) r7 ++ [] := rfl
      rw [List.nil_append, hcontrib, List.append_nil]
      have hexp : rocketContribution cfg7 trigQ (osQ 0 0) r7 =
          (if (osQ 0 0).emit < 1/2 then [trailParticle (osQ 0 0) (stepRocket r7)]
           else []) ++
            (if (stepRocket r7).y ≤ (stepRocket r7).targetY then
              burstList cfg7 trigQ (stepRocket r7).x (stepRocket r7).targetY
                (stepRocket r7).hue (osQ 0 0).burst
            else []) := rfl
      rw [hexp, if_neg hnd', List.append_nil, if_pos (by norm_num [osQ])]
    show updateParticles cfg7 (updateRockets cfg7 trigQ (osQ 0) [r7] []).2 = _
    rw [hps, updateParticles_singleton,
      if_neg (by norm_num [stepParticle, trailParticle, random, osQ, stepRocket, r7])]
  · intro hcontra
    have halpha := congrArg Particle.alpha hcontra
    norm_num [stepParticle, trailParticle, random, osQ, stepRocket, r7] at halpha

theorem trail_integrated_same_tick_witness :
    s7.rockets = [r7] ∧ (¬ (stepRocket r7).y ≤ r7.targetY) ∧
      (frameStep cfg7 trigQ (osQ 0) 800 600 s7).particles =
        ((s7.particles ++
            (if (osQ 0 0).emit < 1/2 then [trailParticle (osQ 0 0) (stepRocket r7)]
             else [])).map (stepParticle cfg7)).filter (fun p => !decide (p.alpha ≤ 0)) :=
  ⟨rfl, by norm_num [stepRocket, r7],
    trail_integrated_same_tick cfg7 trigQ (osQ 0) 800 600 s7 r7 rfl
      (by norm_num [stepRocket, r7])⟩

/-- C8 (amended): each tick advances the rocket and particle pools
unconditionally, while the star pool advances exactly on ticks where
`starfield` is enabled and the constellation pool exactly on ticks where both
`starfield` and `showConstellations` are enabled; stars move by `(vx, vy)` with
the four sequential toroidal wrap checks. -/
theorem frame_advances_pools (cfg : FireworkConfig ℚ) (T : Trig ℚ)
    (o : ℕ → RocketDraws ℚ) (w h : ℚ) (s : SimState ℚ) :
    (frameStep cfg T o w h s).stars =
        (if cfg.starfield then s.stars.map (stepStar w h) else s.stars) ∧
      (frameStep cfg T o w h s).consts =
        (if cfg.starfield && cfg.showConstellations then
          s.consts.map (stepConstellation w)
         else s.consts) ∧
      (frameStep cfg T o w h s).rockets =
        (s.rockets.map stepRocket).filter (fun q => !decide (q.y ≤ q.targetY)) ∧
      (frameStep cfg T o w h s).particles =
        ((s.particles ++ rocketContribs cfg T o s.rockets s.rockets.length).map
          (stepParticle cfg)).filter (fun p => !decide (p.alpha ≤ 0)) ∧
      ∀ st : BgStar ℚ, stepStar w h st =
        { st with
          x := if (if st.x + st.vx < 0 then w else st.x + st.vx) > w then 0
               else if st.x + st.vx < 0 then w else st.x + st.vx
          y := if (if st.y + st.vy < 0 then h else st.y + st.vy) > h then 0
               else if st.y + st.vy < 0 then h else st.y + st.vy } := by
  refine ⟨rfl, rfl, ?_, ?_, fun st => rfl⟩
  · show (updateRockets cfg T o s.rockets s.particles).1 = _
    rw [updateRockets_eq]
  · show updateParticles cfg (updateRockets cfg T o s.rockets s.particles).2 = _
    rw [updateRockets_eq, updateParticles_eq]

/-- Configuration identical to `cfg7` but with a populated pool size, starfield
disabled. -/
def cfg8 : FireworkConfig ℚ :=
  { particleCount := 150
    gravity := 15/100
    friction := 96/100
    spread := 8
    decayRate := 15/1000
    hueVariance := 30
    baseSize := 2
    trailEffect := true
    starfield := false
    showConstellations := true }

/-- Concrete star with nonzero drift. -/
def star8 : BgStar ℚ := ⟨5, 5, -1, 0, 2, 1, 0, 1⟩

/-- Concrete simulation state holding one star. -/
def s8 : SimState ℚ := ⟨[star8], [], [], []⟩

theorem star_update_counterexample :
    (frameStep cfg8 trigQ (osQ 0) 800 600 s8).stars = [star8] ∧
      [star8].map (stepStar (800 : ℚ) 600) ≠ [star8] := by
  constructor
  · show (if cfg8.starfield then s8.stars.map (stepStar 800 600) else s8.stars) = [star8]
    rw [if_neg (by norm_num [cfg8])]
    rfl
  · intro hcontra
    rw [List.map_cons, List.map_nil] at hcontra
    have hhead : stepStar (800 : ℚ) 600 star8 = star8 := (List.cons_eq_cons.mp hcontra).1
    have hx := congrArg BgStar.x hhead
    norm_num [stepStar, star8] at hx
